import Mathlib

/-!
Verification development for the SafeVault service: a shallow embedding of
the security utilities (HTML escaping and note sanitization), the vault
routes (list, search, get, create, update, delete) and the admin user
routes, together with theorems settling the specified properties.

Strings are modelled as Lean `String`/`List Char`; the JavaScript regular
expressions used by the code are embedded as executable single-pass
scanners with the same leftmost-match semantics.  Recursions that are not
structural are driven by a fuel argument equal to the input length, so
every definition evaluates by kernel reduction.
-/

namespace SafeVault

/-! ## Character classes and JS string primitives -/

/-- The whitespace class of JavaScript (`\s` in regexes, `String.trim`,
`parseInt` skipping, validator.js `trim`): ASCII whitespace plus the
Unicode space separators, NBSP, BOM and line/paragraph separators. -/
def isJsSpaceChar (c : Char) : Bool :=
  c == ' ' || c == '\t' || c == '\n' || c == '\r' ||
  c == '\x0b' || c == '\x0c' ||
  c.toNat == 0xa0 || c.toNat == 0x1680 ||
  (0x2000 ≤ c.toNat && c.toNat ≤ 0x200a) ||
  c.toNat == 0x2028 || c.toNat == 0x2029 || c.toNat == 0x202f ||
  c.toNat == 0x205f || c.toNat == 0x3000 || c.toNat == 0xfeff

/-- Decimal digit. -/
def isDigitChar (c : Char) : Bool :=
  48 ≤ c.toNat && c.toNat ≤ 57

/-- The regex word class `\w`: ASCII letters, digits and underscore. -/
def isWordChar (c : Char) : Bool :=
  isDigitChar c || (65 ≤ c.toNat && c.toNat ≤ 90) ||
  (97 ≤ c.toNat && c.toNat ≤ 122) || c == '_'

/-- A double or single quote, as in the regex class `["...]` used by the
event-handler pattern. -/
def isQuoteChar (c : Char) : Bool :=
  c == '"' || c == '\x27'

/-- Case-insensitive character comparison as performed by the `i` regex
flag on ASCII patterns: equal, or an ASCII upper/lower case pair. -/
def charEqCI (a b : Char) : Bool :=
  a == b ||
  (65 ≤ a.toNat && a.toNat ≤ 90 && b.toNat == a.toNat + 32) ||
  (65 ≤ b.toNat && b.toNat ≤ 90 && a.toNat == b.toNat + 32)

/-- Case-insensitive prefix test of a literal pattern. -/
def startsWithCI : List Char → List Char → Bool
  | [], _ => true
  | _ :: _, [] => false
  | p :: ps, c :: cs => charEqCI p c && startsWithCI ps cs

/-- Case-insensitive occurrence of a literal pattern anywhere in a list. -/
def occursCI (pat : List Char) : List Char → Bool
  | [] => startsWithCI pat []
  | c :: cs => startsWithCI pat (c :: cs) || occursCI pat cs

/-- Exact (case-sensitive) prefix test. -/
def startsWithLit : List Char → List Char → Bool
  | [], _ => true
  | _ :: _, [] => false
  | p :: ps, c :: cs => p == c && startsWithLit ps cs

/-- Exact occurrence of a literal pattern anywhere in a list. -/
def occursLit (pat : List Char) : List Char → Bool
  | [] => startsWithLit pat []
  | c :: cs => startsWithLit pat (c :: cs) || occursLit pat cs

/-- JavaScript `String.prototype.trim` (also validator.js default `trim`):
drop JS whitespace from both ends. -/
def jsTrim (s : String) : String :=
  ⟨(((s.data.dropWhile isJsSpaceChar).reverse.dropWhile isJsSpaceChar).reverse)⟩

/-- Numeric value of a list of decimal digits. -/
def digitsVal (ds : List Char) : Nat :=
  ds.foldl (fun a c => a * 10 + (c.toNat - 48)) 0

/-- The leading digit run of a list, as a number; `none` when there is no
leading digit. -/
def leadingInt (l : List Char) : Option Nat :=
  match l.takeWhile isDigitChar with
  | [] => none
  | ds => some (digitsVal ds)

/-- JavaScript `parseInt(s, 10)`: skip leading whitespace, read an optional
sign, then the longest run of decimal digits; `none` (NaN) when no digit
follows.  Trailing garbage is ignored. -/
def jsParseInt (s : String) : Option Int :=
  match s.data.dropWhile isJsSpaceChar with
  | '+' :: r => (leadingInt r).map (fun n => (n : Int))
  | '-' :: r => (leadingInt r).map (fun n => -(n : Int))
  | r => (leadingInt r).map (fun n => (n : Int))

/-! ## The security utils module: escapeHtml / sanitizeInput / sanitizeNote -/

/-- Image of one character under `escapeHtml`: the five HTML-significant
characters map to their entities, everything else to itself.  This is the
replacement map of the source `escapeHtml` regex. -/
def escapeChar (c : Char) : List Char :=
  if c == '&' then ['&', 'a', 'm', 'p', ';']
  else if c == '<' then ['&', 'l', 't', ';']
  else if c == '>' then ['&', 'g', 't', ';']
  else if c == '"' then ['&', 'q', 'u', 'o', 't', ';']
  else if c == '\x27' then ['&', '#', '0', '3', '9', ';']
  else [c]

/-- List form of `escapeHtml`. -/
def escapeHtmlL (cs : List Char) : List Char :=
  (cs.map escapeChar).flatten

/-- `escapeHtml` of the source: entity-encode `& < > " \x27`. -/
def escapeHtml (s : String) : String :=
  ⟨escapeHtmlL s.data⟩

/-- The literal `<script` with the chars of the script-open pattern. -/
def scriptOpenPat : List Char := ['<', 's', 'c', 'r', 'i', 'p', 't']

/-- The literal `</script>` closing pattern. -/
def scriptClosePat : List Char := ['<', '/', 's', 'c', 'r', 'i', 'p', 't', '>']

/-- The literal `javascript:` pattern. -/
def jsSchemePat : List Char := ['j', 'a', 'v', 'a', 's', 'c', 'r', 'i', 'p', 't', ':']

/-- Offset just past the first case-insensitive `</script>` in a list. -/
def findScriptClose : List Char → Option Nat
  | [] => none
  | c :: cs =>
    if startsWithCI scriptClosePat (c :: cs) then some 9
    else (findScriptClose cs).map (· + 1)

/-- Length of the match of `<script\b[^<]*(?:(?!<\/script>)<[^<]*)*<\/script>`
(flags `gi`) at the head of the list, if any: `<script` with a word
boundary, up to and including the first following `</script>`. -/
def tryMatchScript (cs : List Char) : Option Nat :=
  if startsWithCI scriptOpenPat cs then
    let rest := cs.drop 7
    let boundary := match rest with
      | [] => true
      | c :: _ => !(isWordChar c)
    if boundary then
      match findScriptClose rest with
      | some k => some (7 + k)
      | none => none
    else none
  else none

/-- Single left-to-right pass of the script-block removal, with fuel. -/
def stripScriptsGo : Nat → List Char → List Char
  | 0, cs => cs
  | _ + 1, [] => []
  | f + 1, c :: cs =>
    match tryMatchScript (c :: cs) with
    | some n => stripScriptsGo f ((c :: cs).drop n)
    | none => c :: stripScriptsGo f cs

/-- First replace of `sanitizeInput`: remove script element blocks. -/
def stripScriptsL (cs : List Char) : List Char :=
  stripScriptsGo cs.length cs

/-- Number of leading characters satisfying a predicate. -/
def countWhile (p : Char → Bool) : List Char → Nat
  | [] => 0
  | c :: cs => if p c then countWhile p cs + 1 else 0

/-- Length of the match of `on\w+\s*=\s*["\x27][^"\x27]*["\x27]` (flags `gi`)
at the head of the list, if any: `on`, a word run, optional spaces, `=`,
optional spaces, a quote, a quote-free run, a quote. -/
def tryMatchHandler : List Char → Option Nat
  | c0 :: c1 :: rest =>
    if charEqCI 'o' c0 && charEqCI 'n' c1 then
      let w := countWhile isWordChar rest
      if w == 0 then none
      else
        let r1 := rest.drop w
        let s1 := countWhile isJsSpaceChar r1
        let r2 := r1.drop s1
        match r2 with
        | e :: r3 =>
          if e == '=' then
            let s2 := countWhile isJsSpaceChar r3
            let r4 := r3.drop s2
            match r4 with
            | q :: r5 =>
              if isQuoteChar q then
                let m := countWhile (fun c => !(isQuoteChar c)) r5
                match r5.drop m with
                | q2 :: _ =>
                  if isQuoteChar q2 then some (2 + w + s1 + 1 + s2 + 1 + m + 1)
                  else none
                | [] => none
              else none
            | [] => none
          else none
        | [] => none
    else none
  | _ => none

/-- Single left-to-right pass of the event-handler removal, with fuel. -/
def stripHandlersGo : Nat → List Char → List Char
  | 0, cs => cs
  | _ + 1, [] => []
  | f + 1, c :: cs =>
    match tryMatchHandler (c :: cs) with
    | some n => stripHandlersGo f ((c :: cs).drop n)
    | none => c :: stripHandlersGo f cs

/-- Second replace of `sanitizeInput`: remove inline event-handler
attribute assignments. -/
def stripHandlersL (cs : List Char) : List Char :=
  stripHandlersGo cs.length cs

/-- Single left-to-right pass of the `javascript:` removal, with fuel. -/
def stripJsSchemeGo : Nat → List Char → List Char
  | 0, cs => cs
  | _ + 1, [] => []
  | f + 1, c :: cs =>
    if startsWithCI jsSchemePat (c :: cs) then
      stripJsSchemeGo f ((c :: cs).drop 11)
    else c :: stripJsSchemeGo f cs

/-- Third replace of `sanitizeInput`: remove the `javascript:` scheme token. -/
def stripJsSchemeL (cs : List Char) : List Char :=
  stripJsSchemeGo cs.length cs

/-- `sanitizeInput` of the source: the three regex replaces chained in
source order (script blocks, then event handlers, then `javascript:`). -/
def sanitizeInput (s : String) : String :=
  ⟨stripJsSchemeL (stripHandlersL (stripScriptsL s.data))⟩

/-- `sanitizeNote` of the source: empty (falsy) input maps to the empty
string, otherwise `sanitizeInput` then `escapeHtml`. -/
def sanitizeNote (note : String) : String :=
  if note = "" then ""
  else escapeHtml (sanitizeInput note)

/-! ## Data model -/

/-- The role enum of the data model. -/
inductive Role where
  | admin
  | user
  | auditor
deriving DecidableEq

/-- The principal attached to a request by the authentication gate:
subject id and role from the verified token. -/
structure Principal where
  id : Nat
  role : Role
deriving DecidableEq

/-- A row of the vault_items table (timestamps omitted: no claim reads
them). -/
structure VaultItem where
  id : Nat
  ownerId : Nat
  name : String
  note : String
deriving DecidableEq

/-- A row of the users table (password hash omitted: no claim reads it). -/
structure UserRec where
  id : Nat
  email : String
  role : Role
deriving DecidableEq

/-! ## validation middleware (validation rules module) -/

/-- Character class of the item-name regex `^[a-zA-Z0-9\s\-_]+$`. -/
def isNameChar (c : Char) : Bool :=
  (97 ≤ c.toNat && c.toNat ≤ 122) || (65 ≤ c.toNat && c.toNat ≤ 90) ||
  isDigitChar c || isJsSpaceChar c || c == '-' || c == '_'

/-- The regex test `^[a-zA-Z0-9\s\-_]+$`: nonempty and every character in
the class. -/
def matchesNameRegex (t : String) : Bool :=
  !t.data.isEmpty && t.data.all isNameChar

/-- The `name` chain of `validateVaultItem`: trim, length 1 to 255,
name regex.  A missing field fails the length rule. -/
def nameFieldOk (name : Option String) : Bool :=
  match name with
  | none => false
  | some nm =>
    let t := jsTrim nm
    (1 ≤ t.length && t.length ≤ 255) && matchesNameRegex t

/-- The `note` chain of `validateVaultItem`: optional, trim, length at
most 5000. -/
def noteFieldOk (note : Option String) : Bool :=
  match note with
  | none => true
  | some nt => decide ((jsTrim nt).length ≤ 5000)

/-- `validateVaultItem` middleware: both field chains pass; otherwise the
request is rejected with 400 by `handleValidationErrors`. -/
def validateVaultItem (name note : Option String) : Bool :=
  nameFieldOk name && noteFieldOk note

/-- The role values accepted by `validateUserUpdate` (`isIn`). -/
def roleFieldOk (role : Option String) : Bool :=
  match role with
  | none => true
  | some r => r == "admin" || r == "user" || r == "auditor"

/-- `validateSearch` middleware: `query` optional, trimmed, length at most
100. -/
def validateSearch (query : Option String) : Bool :=
  match query with
  | none => true
  | some q => decide ((jsTrim q).length ≤ 100)

/-! ## SQL ILIKE -/

/-- SQL LIKE matching over lowercased character lists: `%` matches any
run, `_` one character, backslash escapes the next character.  Fueled by
`pattern.length + text.length + 1` so it evaluates by reduction. -/
def likeMatchGo : Nat → List Char → List Char → Bool
  | 0, _, _ => false
  | _ + 1, [], [] => true
  | _ + 1, [], _ :: _ => false
  | f + 1, '%' :: ps, [] => likeMatchGo f ps []
  | f + 1, '%' :: ps, c :: ts =>
    likeMatchGo f ps (c :: ts) || likeMatchGo f ('%' :: ps) ts
  | f + 1, '\\' :: p :: ps, c :: ts => p == c && likeMatchGo f ps ts
  | f + 1, '_' :: ps, _ :: ts => likeMatchGo f ps ts
  | f + 1, p :: ps, c :: ts => p == c && likeMatchGo f ps ts
  | _ + 1, _ :: _, [] => false

/-- ASCII lowercasing of one character, as Postgres `lower` does for the
ASCII range used here. -/
def lowerChar (c : Char) : Char :=
  if 65 ≤ c.toNat && c.toNat ≤ 90 then Char.ofNat (c.toNat + 32) else c

/-- Postgres `text ILIKE pattern`: case-insensitive LIKE. -/
def ilike (pattern text : String) : Bool :=
  let ps := pattern.data.map lowerChar
  let ts := text.data.map lowerChar
  likeMatchGo (ps.length + ts.length + 1) ps ts

/-! ## Vault routes -/

/-- Result of a handler that may return an item and may change the
table. -/
structure ItemResult where
  status : Nat
  item : Option VaultItem
  db : List VaultItem
deriving DecidableEq

/-- GET /api/vault/:id — parse the id (400 when NaN), then select the row
with that id owned by the requester (no role distinction); 404 when the
query returns no row. -/
def getVaultItem (db : List VaultItem) (u : Principal) (idParam : String) :
    Nat × Option VaultItem :=
  match jsParseInt idParam with
  | none => (400, none)
  | some n =>
    match (db.filter (fun i => (i.id : Int) == n && i.ownerId == u.id)).head? with
    | none => (404, none)
    | some i => (200, some i)

/-- POST /api/vault — validate the body, then insert a row with the
requester as owner; the stored name is the trimmed name and the stored
note is `sanitizeNote` of the (validator-trimmed) note.  `newId` stands
for the id the database assigns. -/
def createVaultItem (db : List VaultItem) (u : Principal) (newId : Nat)
    (name note : Option String) : ItemResult :=
  if validateVaultItem name note then
    let bodyName := (name.map jsTrim).getD ""
    let bodyNote := (note.map jsTrim).getD ""
    let it : VaultItem :=
      { id := newId, ownerId := u.id,
        name := jsTrim bodyName, note := sanitizeNote bodyNote }
    { status := 201, item := some it, db := db ++ [it] }
  else
    { status := 400, item := none, db := db }

/-- PUT /api/vault/:id — validate the body, parse the id (400 when NaN),
then update the row with that id owned by the requester (no role
distinction); 404 when no row matches. -/
def putVaultItem (db : List VaultItem) (u : Principal) (idParam : String)
    (name note : Option String) : ItemResult :=
  if validateVaultItem name note then
    match jsParseInt idParam with
    | none => { status := 400, item := none, db := db }
    | some n =>
      let bodyName := (name.map jsTrim).getD ""
      let bodyNote := (note.map jsTrim).getD ""
      let newName := jsTrim bodyName
      let newNote := sanitizeNote bodyNote
      let hit := fun (i : VaultItem) => (i.id : Int) == n && i.ownerId == u.id
      match (db.filter hit).head? with
      | none => { status := 404, item := none, db := db }
      | some i0 =>
        { status := 200,
          item := some { i0 with name := newName, note := newNote },
          db := db.map (fun i =>
            if hit i then { i with name := newName, note := newNote } else i) }
  else
    { status := 400, item := none, db := db }

/-- DELETE /api/vault/:id — parse the id (400 when NaN); an admin deletes
by id alone, anyone else only rows they own; 404 when nothing was
deleted. -/
def deleteVaultItem (db : List VaultItem) (u : Principal) (idParam : String) :
    Nat × List VaultItem :=
  match jsParseInt idParam with
  | none => (400, db)
  | some n =>
    if u.role = Role.admin then
      if db.filter (fun i => (i.id : Int) == n) = [] then (404, db)
      else (200, db.filter (fun i => !((i.id : Int) == n)))
    else
      let hit := fun (i : VaultItem) => (i.id : Int) == n && i.ownerId == u.id
      if db.filter hit = [] then (404, db)
      else (200, db.filter (fun i => !(hit i)))

/-- POST /api/vault/search — `validateSearch`, then: absent or blank query
returns the empty list, otherwise the rows owned by the requester whose
name or note matches `%query%` case-insensitively. -/
def searchVault (db : List VaultItem) (u : Principal) (query : Option String) :
    Nat × List VaultItem :=
  if validateSearch query then
    match query with
    | none => (200, [])
    | some q0 =>
      let t := jsTrim q0
      if t = "" then (200, [])
      else
        let pat := "%" ++ t ++ "%"
        (200, db.filter (fun i =>
          i.ownerId == u.id && (ilike pat i.name || ilike pat i.note)))
  else (400, [])

/-! ## User routes (admin only) -/

/-- Route-level gate of the users router.  Modelled from the spec: the
auth middleware module is not part of the source tree here; section 4.4
specifies `requireRole(expected)` permits exactly `principal.role ==
expected` and otherwise yields Forbidden (403). -/
def requireRoleAdmin (u : Principal) : Bool :=
  u.role = Role.admin

/-- GET /api/users/:id — admin gate, parse the id (400 when NaN), then
select by id; 404 when absent. -/
def getUser (users : List UserRec) (u : Principal) (idParam : String) :
    Nat × Option UserRec :=
  if requireRoleAdmin u then
    match jsParseInt idParam with
    | none => (400, none)
    | some n =>
      match (users.filter (fun p => (p.id : Int) == n)).head? with
      | none => (404, none)
      | some p => (200, some p)
  else (403, none)

/-- PUT /api/users/:id — admin gate, `validateUserUpdate` (email optional
and checked by validator.js `isEmail`, taken here as the parameter
`emailOk`, then normalized by `normEmail`, length at most 255; role
optional, in the closed enum), parse the id (400 when NaN), 400 when both
fields are absent, then update; 404 when no row matches. -/
def updateUser (emailOk : String → Bool) (normEmail : String → String)
    (users : List UserRec) (u : Principal) (idParam : String)
    (email roleStr : Option String) : Nat × List UserRec :=
  if requireRoleAdmin u then
    let emailFieldOk := match email with
      | none => true
      | some e => emailOk e && decide ((normEmail e).length ≤ 255)
    if emailFieldOk && roleFieldOk roleStr then
      match jsParseInt idParam with
      | none => (400, users)
      | some n =>
        let newEmail := email.map normEmail
        let hasEmail := match newEmail with
          | some e => e ≠ ""
          | none => false
        let hasRole := match roleStr with
          | some r => r ≠ ""
          | none => false
        if !hasEmail && !hasRole then (400, users)
        else if users.filter (fun p => (p.id : Int) == n) = [] then (404, users)
        else
          (200, users.map (fun p =>
            if (p.id : Int) == n then
              { p with
                email := (newEmail.filter (fun _ => hasEmail)).getD p.email,
                role :=
                  if hasRole then
                    match roleStr with
                    | some "admin" => Role.admin
                    | some "auditor" => Role.auditor
                    | _ => Role.user
                  else p.role }
            else p))
    else (400, users)
  else (403, users)

/-- DELETE /api/users/:id — admin gate, parse the id (400 when NaN),
reject deleting the requester id (400), then delete by id; 404 when
nothing was deleted. -/
def deleteUser (users : List UserRec) (u : Principal) (idParam : String) :
    Nat × List UserRec :=
  if requireRoleAdmin u then
    match jsParseInt idParam with
    | none => (400, users)
    | some n =>
      if n = (u.id : Int) then (400, users)
      else if users.filter (fun p => (p.id : Int) == n) = [] then (404, users)
      else (200, users.filter (fun p => !((p.id : Int) == n)))
  else (403, users)

/-! ## Auxiliary predicates used by the theorems -/

/-- True when a character occurs in a string. -/
def hasChar (c : Char) (s : String) : Bool :=
  s.data.any (fun d => d == c)

/-- The literal `<script>` tag. -/
def scriptTagPat : List Char := ['<', 's', 'c', 'r', 'i', 'p', 't', '>']

/-- The name character class as the specification words it: letters,
digits, spaces, hyphen, underscore (spec-side definition, to compare with
the regex class of the source). -/
def specNameCharOrig (c : Char) : Bool :=
  (97 ≤ c.toNat && c.toNat ≤ 122) || (65 ≤ c.toNat && c.toNat ≤ 90) ||
  isDigitChar c || c == ' ' || c == '-' || c == '_'

/-- The amended spec-side name character class: letters, digits, any JS
whitespace character, hyphen, underscore. -/
def specNameCharAmended (c : Char) : Prop :=
  (97 ≤ c.toNat ∧ c.toNat ≤ 122) ∨ (65 ≤ c.toNat ∧ c.toNat ≤ 90) ∨
  (48 ≤ c.toNat ∧ c.toNat ≤ 57) ∨ isJsSpaceChar c = true ∨ c = '-' ∨ c = '_'

instance (c : Char) : Decidable (specNameCharAmended c) := by
  unfold specNameCharAmended
  infer_instance


/-! ## Supporting lemmas -/

theorem char_eq_of_toNat_eq {a b : Char} (h : a.toNat = b.toNat) : a = b :=
  Char.ext (UInt32.toNat.inj h)

theorem charEqCI_lt_eq_false {c : Char} (h : c ≠ '<') : charEqCI '<' c = false := by
  rw [Bool.eq_false_iff]
  intro hc
  unfold charEqCI at hc
  simp only [Bool.or_eq_true, Bool.and_eq_true, decide_eq_true_eq, beq_iff_eq] at hc
  have h60 : ('<').toNat = 60 := by decide
  rcases hc with (h1 | ⟨⟨h2, _⟩, _⟩) | ⟨⟨h3, _⟩, h4⟩
  · exact h h1.symm
  · omega
  · omega

theorem tryMatchScript_eq_none {c : Char} {cs : List Char} (h : c ≠ '<') :
    tryMatchScript (c :: cs) = none := by
  unfold tryMatchScript
  have hs : startsWithCI scriptOpenPat (c :: cs) = false := by
    simp [scriptOpenPat, startsWithCI, charEqCI_lt_eq_false h]
  rw [hs]
  simp

theorem stripScriptsGo_eq_self {cs : List Char} (h : ∀ c ∈ cs, c ≠ '<') :
    ∀ f, stripScriptsGo f cs = cs := by
  induction cs with
  | nil => intro f; cases f <;> rfl
  | cons c cs ih =>
    intro f
    cases f with
    | zero => rfl
    | succ f =>
      have hc : c ≠ '<' := h c (List.mem_cons_self c cs)
      rw [stripScriptsGo, tryMatchScript_eq_none hc]
      rw [ih (fun d hd => h d (List.mem_cons_of_mem c hd)) f]

theorem stripJsSchemeGo_eq_self {cs : List Char}
    (h : occursCI jsSchemePat cs = false) : ∀ f, stripJsSchemeGo f cs = cs := by
  induction cs with
  | nil => intro f; cases f <;> rfl
  | cons c cs ih =>
    intro f
    cases f with
    | zero => rfl
    | succ f =>
      rw [occursCI, Bool.or_eq_false_iff] at h
      rw [stripJsSchemeGo, if_neg (by rw [h.1]; exact Bool.false_ne_true)]
      rw [ih h.2 f]




theorem tryMatchHandler_some_quote {cs : List Char} {n : Nat}
    (h : tryMatchHandler cs = some n) : ∃ q ∈ cs, isQuoteChar q = true := by
  match cs with
  | [] => simp [tryMatchHandler] at h
  | [c] => simp [tryMatchHandler] at h
  | c0 :: c1 :: rest =>
    simp only [tryMatchHandler] at h
    split at h
    · split at h
      · exact absurd h (by simp)
      · split at h
        next x e r3 heq2 =>
          split at h
          · split at h
            next y q r5 heq4 =>
              split at h
              next hq =>
                refine ⟨q, ?_, hq⟩
                have m1 : q ∈ r3 := by
                  have : q ∈ List.drop (countWhile isJsSpaceChar r3) r3 := by
                    rw [heq4]; exact List.mem_cons_self q r5
                  exact List.mem_of_mem_drop this
                have m2 : q ∈ List.drop (countWhile isWordChar rest) rest := by
                  have : q ∈ List.drop
                      (countWhile isJsSpaceChar (List.drop (countWhile isWordChar rest) rest))
                      (List.drop (countWhile isWordChar rest) rest) := by
                    rw [heq2]; exact List.mem_cons_of_mem e m1
                  exact List.mem_of_mem_drop this
                have m3 : q ∈ rest := List.mem_of_mem_drop m2
                exact List.mem_cons_of_mem c0 (List.mem_cons_of_mem c1 m3)
              next => exact absurd h (by simp)
            next => exact absurd h (by simp)
          · exact absurd h (by simp)
        next => exact absurd h (by simp)
    · exact absurd h (by simp)


theorem stripHandlersGo_eq_self {cs : List Char}
    (h : ∀ c ∈ cs, isQuoteChar c = false) : ∀ f, stripHandlersGo f cs = cs := by
  induction cs with
  | nil => intro f; cases f <;> rfl
  | cons c cs ih =>
    intro f
    cases f with
    | zero => rfl
    | succ f =>
      have hnone : tryMatchHandler (c :: cs) = none := by
        cases hm : tryMatchHandler (c :: cs) with
        | none => rfl
        | some n =>
          obtain ⟨q, hq, hquote⟩ := tryMatchHandler_some_quote hm
          rw [h q hq] at hquote
          exact absurd hquote (by simp)
      rw [stripHandlersGo, hnone]
      rw [ih (fun d hd => h d (List.mem_cons_of_mem c hd)) f]

theorem mem_escapeChar_not_special {c d : Char} (h : c ∈ escapeChar d) :
    c ≠ '<' ∧ c ≠ '>' ∧ c ≠ '"' ∧ c ≠ '\x27' := by
  unfold escapeChar at h
  split at h
  · fin_cases h <;> refine ⟨by decide, by decide, by decide, by decide⟩
  · split at h
    · fin_cases h <;> refine ⟨by decide, by decide, by decide, by decide⟩
    · split at h
      · fin_cases h <;> refine ⟨by decide, by decide, by decide, by decide⟩
      · split at h
        · fin_cases h <;> refine ⟨by decide, by decide, by decide, by decide⟩
        · split at h
          · fin_cases h <;> refine ⟨by decide, by decide, by decide, by decide⟩
          next h1 h2 h3 h4 h5 =>
            have : c = d := by simpa using h
            subst this
            refine ⟨?_, ?_, ?_, ?_⟩
            · intro e; rw [e] at h2; exact h2 (by decide)
            · intro e; rw [e] at h3; exact h3 (by decide)
            · intro e; rw [e] at h4; exact h4 (by decide)
            · intro e; rw [e] at h5; exact h5 (by decide)

theorem mem_escapeHtmlL_not_special {c : Char} {cs : List Char}
    (h : c ∈ escapeHtmlL cs) : c ≠ '<' ∧ c ≠ '>' ∧ c ≠ '"' ∧ c ≠ '\x27' := by
  unfold escapeHtmlL at h
  rw [List.mem_flatten] at h
  obtain ⟨l, hl, hcl⟩ := h
  rw [List.mem_map] at hl
  obtain ⟨d, _, rfl⟩ := hl
  exact mem_escapeChar_not_special hcl

theorem escapeHtmlL_eq_self {cs : List Char}
    (h : ∀ c ∈ cs, c ≠ '&' ∧ c ≠ '<' ∧ c ≠ '>' ∧ c ≠ '"' ∧ c ≠ '\x27') :
    escapeHtmlL cs = cs := by
  induction cs with
  | nil => rfl
  | cons c cs ih =>
    have hc := h c (List.mem_cons_self c cs)
    have h1 : escapeChar c = [c] := by
      unfold escapeChar
      rw [if_neg (by simpa using hc.1), if_neg (by simpa using hc.2.1),
        if_neg (by simpa using hc.2.2.1), if_neg (by simpa using hc.2.2.2.1),
        if_neg (by simpa using hc.2.2.2.2)]
    show ((c :: cs).map escapeChar).flatten = c :: cs
    rw [List.map_cons, List.flatten_cons, h1]
    have := ih (fun d hd => h d (List.mem_cons_of_mem c hd))
    unfold escapeHtmlL at this
    rw [this]
    rfl


theorem sanitizeInput_eq_self {t : String}
    (hlt : ∀ c ∈ t.data, c ≠ '<')
    (hq : ∀ c ∈ t.data, isQuoteChar c = false)
    (hjs : occursCI jsSchemePat t.data = false) :
    sanitizeInput t = t := by
  unfold sanitizeInput stripScriptsL stripHandlersL stripJsSchemeL
  rw [stripScriptsGo_eq_self hlt]
  rw [stripHandlersGo_eq_self hq]
  rw [stripJsSchemeGo_eq_self hjs]

theorem escapeHtml_eq_self {t : String}
    (h : ∀ c ∈ t.data, c ≠ '&' ∧ c ≠ '<' ∧ c ≠ '>' ∧ c ≠ '"' ∧ c ≠ '\x27') :
    escapeHtml t = t := by
  unfold escapeHtml
  rw [escapeHtmlL_eq_self h]

theorem mem_sanitizeNote_not_special {s : String} {c : Char}
    (h : c ∈ (sanitizeNote s).data) :
    c ≠ '<' ∧ c ≠ '>' ∧ c ≠ '"' ∧ c ≠ '\x27' := by
  unfold sanitizeNote at h
  by_cases hs : s = ""
  · rw [if_pos hs] at h
    exact absurd h (by simp)
  · rw [if_neg hs] at h
    exact mem_escapeHtmlL_not_special h

theorem occursLit_eq_false_of_head_notMem {p0 : Char} {ps cs : List Char}
    (h : ∀ c ∈ cs, c ≠ p0) : occursLit (p0 :: ps) cs = false := by
  induction cs with
  | nil => rfl
  | cons c cs ih =>
    rw [occursLit, Bool.or_eq_false_iff]
    refine ⟨?_, ih (fun d hd => h d (List.mem_cons_of_mem c hd))⟩
    rw [startsWithLit, Bool.and_eq_false_iff]
    left
    have : c ≠ p0 := h c (List.mem_cons_self c cs)
    simp [beq_eq_false_iff_ne]
    intro e
    exact this e.symm

theorem sanitizeNote_no_script_tag (s : String) :
    occursLit scriptTagPat (sanitizeNote s).data = false := by
  have : scriptTagPat = '<' :: ['s', 'c', 'r', 'i', 'p', 't', '>'] := rfl
  rw [this]
  exact occursLit_eq_false_of_head_notMem
    (fun c hc => (mem_sanitizeNote_not_special hc).1)

/-- C2 (amended): sanitizeNote is idempotent only on inputs whose sanitized
form contains no ampersand and no case-insensitive occurrence of the
javascript scheme token; on such inputs a second application is the
identity.  In general a second application differs, because the entity
encoder re-escapes the ampersands of the entities it produced. -/
theorem sanitizeNote_idem_cond (s : String)
    (hamp : hasChar '&' (sanitizeNote s) = false)
    (hjs : occursCI jsSchemePat (sanitizeNote s).data = false) :
    sanitizeNote (sanitizeNote s) = sanitizeNote s := by
  by_cases ht : sanitizeNote s = ""
  · rw [ht]; rfl
  · have hamp2 : ∀ c ∈ (sanitizeNote s).data, c ≠ '&' := by
      intro c hc e
      unfold hasChar at hamp
      rw [List.any_eq_false] at hamp
      have := hamp c hc
      rw [e] at this
      exact this (by decide)
    have hfive : ∀ c ∈ (sanitizeNote s).data,
        c ≠ '&' ∧ c ≠ '<' ∧ c ≠ '>' ∧ c ≠ '"' ∧ c ≠ '\x27' := by
      intro c hc
      exact ⟨hamp2 c hc, mem_sanitizeNote_not_special hc⟩
    have hquote : ∀ c ∈ (sanitizeNote s).data, isQuoteChar c = false := by
      intro c hc
      obtain ⟨_, _, h3, h4⟩ := mem_sanitizeNote_not_special hc
      unfold isQuoteChar
      rw [Bool.or_eq_false_iff]
      constructor
      · simp [beq_eq_false_iff_ne]; exact h3
      · simp [beq_eq_false_iff_ne]; exact h4
    conv_lhs => rw [sanitizeNote, if_neg ht]
    rw [sanitizeInput_eq_self (fun c hc => (mem_sanitizeNote_not_special hc).1)
      hquote hjs]
    exact escapeHtml_eq_self hfive

/-- C5: for every input string, sanitizeNote equals the composition
encode-after-strip: the three structural strips (script blocks, inline
event handlers, javascript scheme) in source order, then entity encoding
of the five HTML-significant characters; the falsy-input guard of the
source coincides with that composition on the empty string. -/
theorem sanitizeNote_pipeline (s : String) :
    sanitizeNote s =
      escapeHtml ⟨stripJsSchemeL (stripHandlersL (stripScriptsL s.data))⟩ := by
  by_cases hs : s = ""
  · subst hs; rfl
  · rw [sanitizeNote, if_neg hs]; rfl


theorem length_filter_and_le {α : Type} (l : List α) (a b : α → Bool) :
    (l.filter (fun x => a x && b x)).length ≤ (l.filter a).length := by
  induction l with
  | nil => simp
  | cons x l ih =>
    simp only [List.filter_cons]
    cases hax : a x <;> cases hbx : b x <;> simp [hax, hbx] <;> omega

/-- C3: for a non-admin principal and an existing item of another owner,
GET /api/vault/:id returns 404 (not 403), and DELETE /api/vault/:id
returns 404 and leaves the table unchanged, the item still present. -/
theorem ownership_404 (db : List VaultItem) (u : Principal) (idParam : String)
    (n : Int) (i : VaultItem)
    (hrole : u.role ≠ Role.admin)
    (hparse : jsParseInt idParam = some n)
    (hi : i ∈ db) (hid : (i.id : Int) = n)
    (hnone : ∀ j ∈ db, (j.id : Int) = n → j.ownerId ≠ u.id) :
    getVaultItem db u idParam = (404, none)
    ∧ deleteVaultItem db u idParam = (404, db)
    ∧ i ∈ (deleteVaultItem db u idParam).snd := by
  have hfilter : db.filter (fun j => (j.id : Int) == n && j.ownerId == u.id) = [] := by
    rw [List.filter_eq_nil_iff]
    intro j hj hcond
    rw [Bool.and_eq_true, beq_iff_eq, beq_iff_eq] at hcond
    exact hnone j hj hcond.1 hcond.2
  have hg : getVaultItem db u idParam = (404, none) := by
    unfold getVaultItem
    rw [hparse]
    simp only [hfilter]
    rfl
  have hd : deleteVaultItem db u idParam = (404, db) := by
    unfold deleteVaultItem
    rw [hparse]
    simp only [if_neg hrole]
    rw [if_pos hfilter]
  refine ⟨hg, hd, ?_⟩
  rw [hd]
  exact hi


/-- C1 (amended): admins bypass ownership only for DELETE /api/vault/:id:
a delete by an admin succeeds on any existing item regardless of owner,
while GET and PUT /api/vault/:id apply the ownership filter to admins as
to everyone else and return 404 on items the admin does not own. -/
theorem admin_scope (db : List VaultItem) (u : Principal) (idParam : String)
    (n : Int)
    (hrole : u.role = Role.admin)
    (hparse : jsParseInt idParam = some n) :
    (∀ i ∈ db, (i.id : Int) = n → (deleteVaultItem db u idParam).fst = 200)
    ∧ ((∀ j ∈ db, (j.id : Int) = n → j.ownerId ≠ u.id) →
        (getVaultItem db u idParam).fst = 404
        ∧ ∀ name note, validateVaultItem name note = true →
            (putVaultItem db u idParam name note).status = 404) := by
  constructor
  · intro i hi hid
    have hne : db.filter (fun j => (j.id : Int) == n) ≠ [] := by
      intro e
      rw [List.filter_eq_nil_iff] at e
      exact e i hi (by rw [beq_iff_eq]; exact hid)
    unfold deleteVaultItem
    rw [hparse]
    simp only [if_pos hrole]
    rw [if_neg hne]
  · intro hnone
    have hfilter : db.filter (fun j => (j.id : Int) == n && j.ownerId == u.id) = [] := by
      rw [List.filter_eq_nil_iff]
      intro j hj hcond
      rw [Bool.and_eq_true, beq_iff_eq, beq_iff_eq] at hcond
      exact hnone j hj hcond.1 hcond.2
    constructor
    · unfold getVaultItem
      rw [hparse]
      simp only [hfilter]
      rfl
    · intro name note hvalid
      unfold putVaultItem
      rw [if_pos hvalid, hparse]
      simp only [hfilter]
      rfl

/-- C8 (amended): a path id is rejected with 400 exactly when
parseInt(id, 10) is NaN, that is when no leading decimal digit follows
the optional whitespace and sign; an id with a parseable integer prefix,
including a negative id, is not rejected and the query proceeds with the
parsed value. -/
theorem id_guard (db : List VaultItem) (users : List UserRec) (u : Principal)
    (s : String) :
    (jsParseInt s = none →
      (getVaultItem db u s).fst = 400
      ∧ (deleteVaultItem db u s).fst = 400
      ∧ (∀ name note, (putVaultItem db u s name note).status = 400)
      ∧ (u.role = Role.admin →
          (getUser users u s).fst = 400
          ∧ (deleteUser users u s).fst = 400
          ∧ ∀ emailOk normEmail email roleStr,
              (updateUser emailOk normEmail users u s email roleStr).fst = 400))
    ∧ (∀ n : Int, jsParseInt s = some n →
        (getVaultItem db u s).fst ≠ 400
        ∧ (u.role = Role.admin → (getUser users u s).fst ≠ 400)) := by
  constructor
  · intro hparse
    refine ⟨?_, ?_, ?_, ?_⟩
    · unfold getVaultItem; rw [hparse]
    · unfold deleteVaultItem; rw [hparse]
    · intro name note
      unfold putVaultItem
      by_cases hv : validateVaultItem name note = true
      · rw [if_pos hv, hparse]
      · rw [if_neg hv]
    · intro hadmin
      have hgate : requireRoleAdmin u = true := by
        unfold requireRoleAdmin; rw [hadmin]; rfl
      refine ⟨?_, ?_, ?_⟩
      · unfold getUser; rw [if_pos hgate, hparse]
      · unfold deleteUser; rw [if_pos hgate, hparse]
      · intro emailOk normEmail email roleStr
        unfold updateUser
        rw [if_pos hgate]
        by_cases hv : ((match email with
            | none => true
            | some e => emailOk e && decide ((normEmail e).length ≤ 255)) &&
            roleFieldOk roleStr) = true
        · rw [if_pos hv, hparse]
        · rw [if_neg hv]
  · intro n hparse
    constructor
    · unfold getVaultItem
      rw [hparse]
      cases hh : (db.filter (fun i => (i.id : Int) == n && i.ownerId == u.id)).head? <;>
        simp [hh]
    · intro hadmin
      have hgate : requireRoleAdmin u = true := by
        unfold requireRoleAdmin; rw [hadmin]; rfl
      unfold getUser
      rw [if_pos hgate, hparse]
      cases hh : (users.filter (fun p => (p.id : Int) == n)).head? <;> simp [hh]


/-- C9: DELETE /api/users/:id with the requester own id is rejected with
400 and deletes nothing, even for an admin; with a different existing id
the deletion proceeds and returns 200. -/
theorem no_self_delete (users : List UserRec) (u : Principal) (s : String)
    (n : Int)
    (hadmin : u.role = Role.admin)
    (hparse : jsParseInt s = some n) :
    (n = (u.id : Int) → deleteUser users u s = (400, users))
    ∧ (n ≠ (u.id : Int) → (∃ p ∈ users, (p.id : Int) = n) →
        (deleteUser users u s).fst = 200
        ∧ (deleteUser users u s).snd
            = users.filter (fun p => !((p.id : Int) == n))) := by
  have hgate : requireRoleAdmin u = true := by
    unfold requireRoleAdmin; rw [hadmin]; rfl
  constructor
  · intro hself
    unfold deleteUser
    rw [if_pos hgate, hparse]
    simp only [if_pos hself]
  · intro hdiff ⟨p, hp, hpid⟩
    have hne : users.filter (fun q => (q.id : Int) == n) ≠ [] := by
      intro e
      rw [List.filter_eq_nil_iff] at e
      exact e p hp (by rw [beq_iff_eq]; exact hpid)
    unfold deleteUser
    rw [if_pos hgate, hparse]
    simp only [if_neg hdiff, if_neg hne]
    exact ⟨by simp, by simp⟩

/-- C10: POST /api/vault/search rejects every query whose trimmed length
exceeds 100 characters with status 400, although the note field accepts
values up to 5000 characters. -/
theorem search_limit (db : List VaultItem) (u : Principal) :
    (∀ q : String, 100 < (jsTrim q).length →
      (searchVault db u (some q)).fst = 400)
    ∧ (∀ s : String, (jsTrim s).length ≤ 5000 → noteFieldOk (some s) = true) := by
  constructor
  · intro q hq
    have hv : validateSearch (some q) = false := by
      unfold validateSearch
      rw [decide_eq_false_iff_not]
      omega
    unfold searchVault
    rw [hv]
    rfl
  · intro s hs
    unfold noteFieldOk
    rw [decide_eq_true_eq]
    exact hs

/-- C6: search returns 200 with an empty list for a blank query; every
returned item is owned by the requester; and for a user owning exactly
two items the classic injection query returns at most two items. -/
theorem search_scoped (db : List VaultItem) (u : Principal) :
    (∀ q : String, jsTrim q = "" → searchVault db u (some q) = (200, []))
    ∧ (∀ qo : Option String, ∀ i ∈ (searchVault db u qo).snd, i.ownerId = u.id)
    ∧ ((db.filter (fun i => i.ownerId == u.id)).length = 2 →
        (searchVault db u (some "\x27 OR 1=1 --")).snd.length ≤ 2) := by
  refine ⟨?_, ?_, ?_⟩
  · intro q hq
    have hv : validateSearch (some q) = true := by
      unfold validateSearch
      rw [decide_eq_true_eq, hq]
      decide
    unfold searchVault
    rw [hv]
    simp only [hq]
    rfl
  · intro qo i hi
    unfold searchVault at hi
    by_cases hv : validateSearch qo = true
    · rw [if_pos hv] at hi
      cases qo with
      | none => exact absurd hi (by simp)
      | some q0 =>
        by_cases ht : jsTrim q0 = ""
        · simp only [if_pos ht] at hi
          exact absurd hi (by simp)
        · simp only [if_neg ht] at hi
          rw [List.mem_filter] at hi
          have := hi.2
          rw [Bool.and_eq_true, beq_iff_eq] at this
          exact this.1
    · rw [if_neg hv] at hi
      exact absurd hi (by simp)
  · intro h2
    have hv : validateSearch (some "\x27 OR 1=1 --") = true := by decide
    have ht : ¬ (jsTrim "\x27 OR 1=1 --" = "") := by decide
    unfold searchVault
    rw [hv]
    simp only [if_neg ht]
    calc (db.filter (fun i => i.ownerId == u.id &&
            (ilike ("%" ++ jsTrim "\x27 OR 1=1 --" ++ "%") i.name ||
             ilike ("%" ++ jsTrim "\x27 OR 1=1 --" ++ "%") i.note))).length
        ≤ (db.filter (fun i => i.ownerId == u.id)).length :=
          length_filter_and_le db _ _
      _ = 2 := h2


theorem isNameChar_iff (c : Char) : isNameChar c = true ↔ specNameCharAmended c := by
  unfold isNameChar specNameCharAmended isDigitChar
  simp only [Bool.or_eq_true, Bool.and_eq_true, decide_eq_true_eq, beq_iff_eq]
  tauto

/-- C4 (amended): every accepted create or update stores and returns as
the note exactly sanitizeNote of the validator-trimmed raw note (the raw
value is never persisted), and no sanitizeNote output ever contains the
literal script open tag, since the encoder leaves no angle bracket. -/
theorem note_sanitized :
    (∀ (db : List VaultItem) (u : Principal) (newId : Nat)
        (name note : Option String),
      (createVaultItem db u newId name note).status = 201 →
        ∃ it, (createVaultItem db u newId name note).item = some it
          ∧ it ∈ (createVaultItem db u newId name note).db
          ∧ it.note = sanitizeNote ((note.map jsTrim).getD ""))
    ∧ (∀ (db : List VaultItem) (u : Principal) (idParam : String)
        (name note : Option String),
      (putVaultItem db u idParam name note).status = 200 →
        ∃ it, (putVaultItem db u idParam name note).item = some it
          ∧ it.note = sanitizeNote ((note.map jsTrim).getD ""))
    ∧ (∀ s : String, occursLit scriptTagPat (sanitizeNote s).data = false) := by
  refine ⟨?_, ?_, sanitizeNote_no_script_tag⟩
  · intro db u newId name note h
    unfold createVaultItem at h ⊢
    by_cases hv : validateVaultItem name note = true
    · rw [if_pos hv]
      exact ⟨_, rfl, by simp, rfl⟩
    · rw [if_neg hv] at h
      simp at h
  · intro db u idParam name note h
    unfold putVaultItem at h ⊢
    by_cases hv : validateVaultItem name note = true
    · rw [if_pos hv] at h ⊢
      cases hp : jsParseInt idParam with
      | none => rw [hp] at h; simp at h
      | some n =>
        rw [hp] at h
        cases hh : (db.filter (fun i => (i.id : Int) == n && i.ownerId == u.id)).head? with
        | none => simp only [hh] at h; simp at h
        | some i0 =>
          simp only [hh]
          exact ⟨_, rfl, rfl⟩
    · rw [if_neg hv] at h
      simp at h

set_option maxRecDepth 8192 in
/-- C7 (amended): name validation accepts exactly the trimmed strings of
length 1 to 255 over letters, digits, JS whitespace characters (the regex
class with backslash-s, which is wider than the space character), hyphen
and underscore; the 256-character name is rejected with 400 and the value
Valid Item Name 123 is accepted with 201. -/
theorem name_validation :
    (∀ nm : String,
      nameFieldOk (some nm) = true ↔
        (1 ≤ (jsTrim nm).length ∧ (jsTrim nm).length ≤ 255 ∧
          ∀ c ∈ (jsTrim nm).data, specNameCharAmended c))
    ∧ (createVaultItem [] ⟨1, Role.user⟩ 1
        (some (String.mk (List.replicate 256 'a'))) none).status = 400
    ∧ (createVaultItem [] ⟨1, Role.user⟩ 1
        (some "Valid Item Name 123") (some "ok")).status = 201 := by
  refine ⟨?_, by decide, by decide⟩
  intro nm
  unfold nameFieldOk matchesNameRegex
  simp only [Bool.and_eq_true, decide_eq_true_eq, List.all_eq_true]
  constructor
  · rintro ⟨⟨h1, h2⟩, _, h4⟩
    exact ⟨h1, h2, fun c hc => (isNameChar_iff c).mp (h4 c hc)⟩
  · rintro ⟨h1, h2, h3⟩
    refine ⟨⟨h1, h2⟩, ?_, fun c hc => (isNameChar_iff c).mpr (h3 c hc)⟩
    have hlen : (jsTrim nm).length = (jsTrim nm).data.length := rfl
    cases he : (jsTrim nm).data with
    | nil =>
      rw [he] at hlen
      simp only [List.length_nil] at hlen
      omega
    | cons a l => rfl


/-- C1, counterexample: an admin requesting GET /api/vault/:id on an
existing item of another owner receives 404, not success, so the claim
that every item-scoped operation succeeds for admins is false. -/
theorem admin_scope_cex :
    ((⟨1, Role.admin⟩ : Principal).role = Role.admin
      ∧ (⟨10, 2, "n", "t"⟩ : VaultItem) ∈ [(⟨10, 2, "n", "t"⟩ : VaultItem)]
      ∧ (⟨10, 2, "n", "t"⟩ : VaultItem).ownerId ≠ (⟨1, Role.admin⟩ : Principal).id)
    ∧ (getVaultItem [⟨10, 2, "n", "t"⟩] ⟨1, Role.admin⟩ "10").fst = 404
    ∧ (getVaultItem [⟨10, 2, "n", "t"⟩] ⟨1, Role.admin⟩ "10").fst ≠ 200 := by
  decide

/-- C1, witness: the amended theorem applied at a concrete admin and item. -/
theorem admin_scope_witness :
    (deleteVaultItem [⟨10, 2, "n", "t"⟩] ⟨1, Role.admin⟩ "10").fst = 200
    ∧ (getVaultItem [⟨10, 2, "n", "t"⟩] ⟨1, Role.admin⟩ "10").fst = 404 := by
  have h := admin_scope [⟨10, 2, "n", "t"⟩] ⟨1, Role.admin⟩ "10" 10 rfl (by decide)
  exact ⟨h.1 ⟨10, 2, "n", "t"⟩ (by decide) (by decide), (h.2 (by decide)).1⟩

/-- C2, counterexample: the claim as stated fails at the input consisting
of a single ampersand; one application gives the amp entity, a second
application re-escapes its ampersand. -/
theorem sanitize_idem_cex :
    sanitizeNote (sanitizeNote "&") ≠ sanitizeNote "&" := by decide

/-- C2, witness: the amended theorem applied at a concrete benign input. -/
theorem sanitize_idem_witness :
    sanitizeNote (sanitizeNote "hello") = sanitizeNote "hello" :=
  sanitizeNote_idem_cond "hello" (by decide) (by decide)

/-- C3, witness: the theorem applied at a concrete principal and item. -/
theorem ownership_404_witness :
    getVaultItem [⟨10, 2, "n", "t"⟩] ⟨1, Role.user⟩ "10" = (404, none)
    ∧ deleteVaultItem [⟨10, 2, "n", "t"⟩] ⟨1, Role.user⟩ "10"
        = (404, [⟨10, 2, "n", "t"⟩]) := by
  have h := ownership_404 [⟨10, 2, "n", "t"⟩] ⟨1, Role.user⟩ "10" 10
    ⟨10, 2, "n", "t"⟩ (by decide) (by decide) (by decide) (by decide) (by decide)
  exact ⟨h.1, h.2.1⟩

/-- C4, counterexample: a note with a leading space is stored as
sanitizeNote of its trimmed form, which differs from sanitizeNote of the
raw input, refuting the claim that the stored value is sanitizeNote of
the raw input. -/
theorem note_sanitized_cex :
    (createVaultItem [] ⟨1, Role.user⟩ 5 (some "Valid Name") (some " a")).status = 201
    ∧ ((createVaultItem [] ⟨1, Role.user⟩ 5 (some "Valid Name")
        (some " a")).item.map VaultItem.note) = some "a"
    ∧ sanitizeNote " a" = " a"
    ∧ (" a" : String) ≠ "a" := by decide

/-- C4, witness: the amended theorem applied at a concrete create. -/
theorem note_sanitized_witness :
    ∃ it, (createVaultItem [] ⟨1, Role.user⟩ 5 (some "Valid Name")
        (some "x<y")).item = some it
      ∧ it ∈ (createVaultItem [] ⟨1, Role.user⟩ 5 (some "Valid Name")
          (some "x<y")).db
      ∧ it.note = sanitizeNote (((some "x<y").map jsTrim).getD "") :=
  note_sanitized.1 [] ⟨1, Role.user⟩ 5 (some "Valid Name") (some "x<y") (by decide)

/-- C6, witness: the theorem applied at a concrete two-item table. -/
theorem search_scoped_witness :
    searchVault [⟨1, 7, "Item 1", "Note 1"⟩, ⟨2, 7, "Item 2", "Note 2"⟩]
        ⟨7, Role.user⟩ (some "   ") = (200, [])
    ∧ (searchVault [⟨1, 7, "Item 1", "Note 1"⟩, ⟨2, 7, "Item 2", "Note 2"⟩]
        ⟨7, Role.user⟩ (some "\x27 OR 1=1 --")).snd.length ≤ 2 := by
  have h := search_scoped
    [⟨1, 7, "Item 1", "Note 1"⟩, ⟨2, 7, "Item 2", "Note 2"⟩] ⟨7, Role.user⟩
  exact ⟨h.1 "   " (by decide), h.2.2 (by decide)⟩

/-- C7, counterexample: a name with an interior tab is accepted (201),
although the tab is outside the claimed class of letters, digits, spaces,
hyphens and underscores, refuting the stated exact characterization. -/
theorem name_validation_cex :
    validateVaultItem (some "a\tb") none = true
    ∧ (createVaultItem [] ⟨1, Role.user⟩ 1 (some "a\tb") none).status = 201
    ∧ '\t' ∈ "a\tb".data
    ∧ specNameCharOrig '\t' = false := by decide

/-- C7, witness: the amended characterization applied at a concrete name. -/
theorem name_validation_witness :
    nameFieldOk (some "abc") = true :=
  (name_validation.1 "abc").mpr (by decide)

/-- C8, counterexample: the id -5 does not parse as a non-negative
integer, yet the route does not return 400; the query runs and yields
404, refuting the claim that such input fails closed with 400. -/
theorem id_guard_cex :
    jsParseInt "-5" = some (-5)
    ∧ (getVaultItem [] ⟨1, Role.user⟩ "-5").fst = 404
    ∧ (getVaultItem [] ⟨1, Role.user⟩ "-5").fst ≠ 400 := by decide

/-- C8, witness: the amended theorem applied at concrete ids. -/
theorem id_guard_witness :
    (getVaultItem [] ⟨1, Role.user⟩ "abc").fst = 400
    ∧ (getVaultItem [] ⟨1, Role.user⟩ "-5").fst ≠ 400 := by
  refine ⟨((id_guard [] [] ⟨1, Role.user⟩ "abc").1 (by decide)).1, ?_⟩
  exact ((id_guard [] [] ⟨1, Role.user⟩ "-5").2 (-5) (by decide)).1

/-- C9, witness: the theorem applied at a concrete admin deleting the own
account id. -/
theorem no_self_delete_witness :
    deleteUser [⟨1, "admin@safevault.com", Role.admin⟩] ⟨1, Role.admin⟩ "1"
      = (400, [⟨1, "admin@safevault.com", Role.admin⟩]) := by
  have h := no_self_delete [⟨1, "admin@safevault.com", Role.admin⟩]
    ⟨1, Role.admin⟩ "1" 1 rfl (by decide)
  exact h.1 (by decide)

set_option maxRecDepth 8192 in
/-- C10, witness: the theorem applied at a 101-character query. -/
theorem search_limit_witness :
    (searchVault [] ⟨1, Role.user⟩
      (some (String.mk (List.replicate 101 'a')))).fst = 400 := by
  have h := search_limit [] ⟨1, Role.user⟩
  exact h.1 (String.mk (List.replicate 101 'a')) (by decide)


end SafeVault
